import Mathlib

/-!
Shallow embedding of the resumable bulk-collection engine in
`src/ingest/subreddit_subscribers.py` (function `run`), together with the
constants and helpers it uses, and proofs of the specification claims
about it.  Effects are made explicit:

* the fetch client, per-fetch wall-clock durations and output-sink success
  are an `Env` of pure functions;
* every `save_state` call is recorded, in order, in a `saves` trace;
* every `save_raw_parquet` call is recorded in a `writes` trace;
* every fetch attempt is recorded in an `attempts` trace;
* the Python `return` sites of `run` are labelled with the terminal state
  they correspond to (`RunOutcome`), and `RunOutcome.toBool` is the boolean
  the Python function actually returns at each site.

Timestamps are integer seconds; the run's monotone clock starts at `0` and
`now0` is the wall-clock time at run start, so `datetime.now()` during the
run is `now0 + clock`.
-/

namespace RedditStats

/-- Constant `MAX_CONSECUTIVE_ERRORS` from the source. -/
def MAX_CONSECUTIVE_ERRORS : Nat := 50

/-- Constant `GH_ACTIONS_MAX_RUN_SECONDS = 5.8 * 60 * 60 = 20880.0` from the
source, in whole seconds. -/
def GH_ACTIONS_MAX_RUN_SECONDS : Nat := 20880

/-- The 24h cooldown of the `hours_since_block >= 24` check, in seconds. -/
def COOLDOWN_SECONDS : Int := 86400

/-- Civil date from days since 1970-01-01 (the computation performed by
`datetime.fromtimestamp(utc_day * 86400, tz=timezone.utc)`). -/
def civilFromDays (z0 : Int) : Int × Int × Int :=
  let z := z0 + 719468
  let era := Int.fdiv z 146097
  let doe := z - era * 146097
  let yoe := Int.fdiv (doe - Int.fdiv doe 1460 + Int.fdiv doe 36524 - Int.fdiv doe 146096) 365
  let y := yoe + era * 400
  let doy := doe - (365 * yoe + Int.fdiv yoe 4 - Int.fdiv yoe 100)
  let mp := Int.fdiv (5 * doy + 2) 153
  let d := doy - Int.fdiv (153 * mp + 2) 5 + 1
  let m := mp + (if mp < 10 then 3 else -9)
  (y + (if m ≤ 2 then 1 else 0), m, d)

/-- Zero-pad to two digits (`strftime` `%m` / `%d`). -/
def pad2 (n : Int) : String :=
  if 0 ≤ n ∧ n < 10 then "0" ++ toString n else toString n

/-- Zero-pad to four digits (`strftime` `%Y`). -/
def pad4 (n : Int) : String :=
  if 0 ≤ n ∧ n < 10 then "000" ++ toString n
  else if 0 ≤ n ∧ n < 100 then "00" ++ toString n
  else if 0 ≤ n ∧ n < 1000 then "0" ++ toString n
  else toString n

/-- Function `utc_day_to_date` from the source: days since the Unix epoch to
an ISO `YYYY-MM-DD` string. -/
def utc_day_to_date (utcDay : Int) : String :=
  let c := civilFromDays utcDay
  pad4 c.1 ++ "-" ++ pad2 c.2.1 ++ "-" ++ pad2 c.2.2

/-- One element of the JSON `subscriberCountTimeSeries` list: each field is
present (`some`) or missing/null (`none`), as tested by the
`point.get(...) is not None` checks of the source. -/
structure RawPoint where
  utcDay : Option Int
  count : Option Int
deriving DecidableEq, Repr

/-- One output row of the parquet table: `subreddit`, `date`, `subscribers`. -/
structure Row where
  subreddit : String
  date : String
  subscribers : Int
deriving DecidableEq, Repr

/-- The row built from one time-series point, or `none` when `utcDay` or
`count` is missing (the `if utc_day is not None and count is not None`
test). -/
def toRow (s : String) (p : RawPoint) : Option Row :=
  match p.utcDay, p.count with
  | some d, some c => some ⟨s, utc_day_to_date d, c⟩
  | _, _ => none

/-- The `rows` list built from a time series: points missing `utcDay` or
`count` are skipped. -/
def rowsOf (s : String) (series : List RawPoint) : List Row :=
  series.filterMap (toRow s)

/-- A point is well-formed when both fields are present. -/
def RawPoint.wf (p : RawPoint) : Bool :=
  p.utcDay.isSome && p.count.isSome

/-- Resolved outcome of `fetch_subreddit_stats` for one entity, after the
retry/rate-limit layers: `notFound` is the `None` return (404), `success`
carries the `subscriberCountTimeSeries` list (empty when the key is missing
or empty), `permanentError` is a raised `PermanentError`, `transientError`
is any other exception with retries exhausted. -/
inductive FetchOutcome where
  | notFound
  | success (series : List RawPoint)
  | permanentError
  | transientError
deriving DecidableEq, Repr

/-- The persisted collection state: the dict written by every `save_state`
call (`fetched`, `failed`, `blocked`, `blocked_at`). -/
structure StateRecord where
  fetched : Finset String
  failed : Finset String
  blocked : Finset String
  blocked_at : Option Int
deriving DecidableEq

/-- The documented state invariant: the three sets are pairwise disjoint and
`blocked_at` is non-null iff `blocked` is non-empty. -/
def StateRecord.Inv (st : StateRecord) : Prop :=
  st.fetched ∩ st.failed = ∅ ∧ st.fetched ∩ st.blocked = ∅ ∧
  st.failed ∩ st.blocked = ∅ ∧ (st.blocked_at.isSome ↔ st.blocked ≠ ∅)

instance (st : StateRecord) : Decidable st.Inv := by
  unfold StateRecord.Inv; infer_instance

/-- The engine's environment: the fetch client (deterministic per entity
name), the wall-clock seconds one fetch consumes (including its internal
retries and rate-limit waits), and whether the output-sink write
(`save_raw_parquet`) for an entity succeeds or raises. -/
structure Env where
  fetch : String → FetchOutcome
  dur : String → Nat
  sinkOk : String → Bool

/-- In-memory accumulator of one run: the four state variables, the
consecutive-transient-error counter, the current failure batch
(`current_block_batch`), the monotone clock, and the three effect traces. -/
structure Acc where
  fetched : Finset String
  failed : Finset String
  blocked : Finset String
  blocked_at : Option Int
  consecutive : Nat
  batch : List String
  clock : Nat
  attempts : List String
  saves : List StateRecord
  writes : List (String × List Row)
deriving DecidableEq

/-- The state dict that a `save_state` call would write from the current
in-memory variables. -/
def stateOf (a : Acc) : StateRecord :=
  ⟨a.fetched, a.failed, a.blocked, a.blocked_at⟩

/-- The terminal state reached by a run, labelling the `return` sites of the
Python `run`: `completed` (backlog exhausted, or nothing pending at all),
`timeExhausted` (time budget hit with an empty failure batch),
`blockedCooldown` (blocking threshold hit, time budget hit with a non-empty
failure batch, or nothing pending while some entities are blocked). -/
inductive RunOutcome where
  | completed
  | timeExhausted
  | blockedCooldown
deriving DecidableEq, Repr

/-- The boolean the Python `run` actually returns at each terminal site:
`True` only at the `TIME_EXHAUSTED` site (the `return True` with comment
`More work to do`); every other site returns `False`. -/
def RunOutcome.toBool : RunOutcome → Bool
  | .timeExhausted => true
  | _ => false

/-- Result of processing one entity: either the loop continues with an
updated accumulator, or the run returns. -/
inductive StepRes where
  | cont (a : Acc)
  | halt (a : Acc) (o : RunOutcome)
deriving DecidableEq

/-- Marks the entity fetched and persists:
`fetched_subreddits.add(subreddit)` followed by `save_state`. -/
def markFetched (s : String) (a : Acc) : Acc :=
  let a1 := {a with fetched := insert s a.fetched}
  {a1 with saves := a1.saves ++ [stateOf a1]}

/-- The body of the `try`/`except` dispatch on one fetch outcome.  On any
non-exception return the counter and batch are reset first (lines
`consecutive_errors = 0; current_block_batch.clear()`), so when the sink
write raises, the broad `except Exception` handler increments from the
already-reset values, leaving `consecutive = 1` and `batch = [s]`. -/
def handleOutcome (o : FetchOutcome) (ok : Bool) (s : String) (a : Acc) : Acc :=
  match o with
  | .transientError =>
      {a with consecutive := a.consecutive + 1, batch := a.batch ++ [s]}
  | .permanentError =>
      let a1 := {a with failed := insert s a.failed, consecutive := 0, batch := []}
      {a1 with saves := a1.saves ++ [stateOf a1]}
  | .notFound =>
      markFetched s {a with consecutive := 0, batch := []}
  | .success series =>
      let a1 := {a with consecutive := 0, batch := []}
      if series.isEmpty then markFetched s a1
      else
        let rows := rowsOf s series
        if rows.isEmpty then markFetched s a1
        else if ok then
          markFetched s {a1 with writes := a1.writes ++ [(s, rows)]}
        else
          {a1 with consecutive := a1.consecutive + 1, batch := a1.batch ++ [s]}

/-- One iteration of the main loop for entity `s`: the blocking-threshold
check, then the time-budget check, then the fetch and its dispatch.  At the
two abort sites the persisted record carries a fresh `blocked_at =
datetime.now()`; the in-memory `blocked_at` local is not reassigned there
(the function returns immediately). -/
def stepEntity (env : Env) (now0 : Int) (s : String) (a : Acc) : StepRes :=
  if a.consecutive ≥ MAX_CONSECUTIVE_ERRORS then
    let blocked1 := a.blocked ∪ a.batch.toFinset
    let st1 : StateRecord := ⟨a.fetched, a.failed, blocked1, some (now0 + a.clock)⟩
    .halt {a with blocked := blocked1, saves := a.saves ++ [st1]} .blockedCooldown
  else if a.clock ≥ GH_ACTIONS_MAX_RUN_SECONDS then
    if a.batch.isEmpty then .halt a .timeExhausted
    else
      let blocked1 := a.blocked ∪ a.batch.toFinset
      let st1 : StateRecord := ⟨a.fetched, a.failed, blocked1, some (now0 + a.clock)⟩
      .halt {a with blocked := blocked1, saves := a.saves ++ [st1]} .blockedCooldown
  else
    let a1 := {a with clock := a.clock + env.dur s, attempts := a.attempts ++ [s]}
    .cont (handleOutcome (env.fetch s) (env.sinkOk s) s a1)

/-- The `for i, subreddit in enumerate(pending)` loop. -/
def processLoop (env : Env) (now0 : Int) : List String → Acc → Acc × RunOutcome
  | [], a => (a, .completed)
  | s :: rest, a =>
      match stepEntity env now0 s a with
      | .halt a1 o => (a1, o)
      | .cont a1 => processLoop env now0 rest a1

/-- Startup cooldown reconciliation (`if blocked_at and blocked_subreddits:
... if hours_since_block >= 24:`): returns the reconciled state and the list
of `save_state` calls it performed. -/
def reconcile (now0 : Int) (st : StateRecord) : StateRecord × List StateRecord :=
  match st.blocked_at with
  | some t =>
      if st.blocked ≠ ∅ ∧ now0 - t ≥ COOLDOWN_SECONDS then
        (⟨st.fetched, st.failed, ∅, none⟩, [⟨st.fetched, st.failed, ∅, none⟩])
      else (st, [])
  | none => (st, [])

/-- The backlog: `[s for s in subreddits if s not in fetched and s not in
failed and s not in blocked]`. -/
def pendingOf (st : StateRecord) (subs : List String) : List String :=
  subs.filter fun s => decide (s ∉ st.fetched ∧ s ∉ st.failed ∧ s ∉ st.blocked)

/-- Fresh accumulator from a loaded (reconciled) state, carrying the saves
the reconciliation already made. -/
def initAcc (st : StateRecord) (saves0 : List StateRecord) : Acc :=
  ⟨st.fetched, st.failed, st.blocked, st.blocked_at, 0, [], 0, [], saves0, []⟩

/-- The engine `run`: reconcile the cooldown, compute the backlog, return
early when nothing is pending but some entities are blocked, otherwise
process the backlog. -/
def run (env : Env) (now0 : Int) (subs : List String) (st0 : StateRecord) :
    Acc × RunOutcome :=
  if (pendingOf (reconcile now0 st0).1 subs).isEmpty ∧ (reconcile now0 st0).1.blocked ≠ ∅ then
    (initAcc (reconcile now0 st0).1 (reconcile now0 st0).2, .blockedCooldown)
  else
    processLoop env now0 (pendingOf (reconcile now0 st0).1 subs)
      (initAcc (reconcile now0 st0).1 (reconcile now0 st0).2)

/-- The boolean actually returned to the caller (`main` maps `True` to exit
code 2, i.e. re-invoke). -/
def runBool (env : Env) (now0 : Int) (subs : List String) (st0 : StateRecord) :
    Bool :=
  ((run env now0 subs st0).2).toBool

/-- Batch entities carry no disposition yet. -/
def BatchOK (a : Acc) : Prop :=
  ∀ s ∈ a.batch, s ∉ a.fetched ∧ s ∉ a.failed ∧ s ∉ a.blocked

/-- Entities still to process carry no disposition and are not in the
batch. -/
def PendOK (a : Acc) (l : List String) : Prop :=
  ∀ s ∈ l, s ∉ a.fetched ∧ s ∉ a.failed ∧ s ∉ a.blocked ∧ s ∉ a.batch

/-- Inductive invariant of the main loop, for accumulator `a` and remaining
backlog `l`. -/
def LoopInv (a : Acc) (l : List String) : Prop :=
  (stateOf a).Inv ∧ (∀ st ∈ a.saves, st.Inv) ∧ a.consecutive = a.batch.length ∧
  BatchOK a ∧ l.Nodup ∧ PendOK a l

/-- An empty loaded state. -/
def stEmpty : StateRecord := ⟨∅, ∅, ∅, none⟩

/-- A state with one blocked entity and a fresh `blocked_at`. -/
def stBlockedNow : StateRecord := ⟨∅, ∅, {"a"}, some 0⟩

/-- A state in which entity `a` is already fetched. -/
def stW : StateRecord := ⟨{"a"}, ∅, ∅, none⟩

/-- A fetch client whose every call exhausts retries with transient
errors. -/
def envAllTransient : Env := ⟨fun _ => .transientError, fun _ => 0, fun _ => true⟩

/-- A fetch client returning an empty series for every entity. -/
def envOkEmpty : Env := ⟨fun _ => .success [], fun _ => 0, fun _ => true⟩

/-- A fetch client where entity `a` has one data point but its output-sink
write raises, while every other entity has an empty series. -/
def envSinkFail : Env :=
  ⟨fun s => if s = "a" then .success [⟨some 0, some 1⟩] else .success [],
   fun _ => 0, fun s => s ≠ "a"⟩

/-- A fetch client raising `PermanentError` for every entity. -/
def envPerm : Env := ⟨fun _ => .permanentError, fun _ => 0, fun _ => true⟩

/-- A fetch client returning one well-formed data point for every entity. -/
def envW : Env := ⟨fun _ => .success [⟨some 0, some 5⟩], fun _ => 0, fun _ => true⟩

/-- A master list of exactly `MAX_CONSECUTIVE_ERRORS` distinct entities. -/
def subs50 : List String := (List.range 50).map fun i => "s" ++ toString i

/-- An accumulator whose counter sits at the blocking threshold with two
batch entries. -/
def accW : Acc := ⟨∅, ∅, ∅, none, 50, ["a", "b"], 0, [], [], []⟩

/-- An accumulator that has used up the whole time budget with an empty
batch. -/
def accT : Acc := ⟨∅, ∅, ∅, none, 0, [], 20880, [], [], []⟩

end RedditStats

namespace RedditStats

theorem handleOutcome_attempts (o : FetchOutcome) (ok : Bool) (s : String) (a : Acc) :
    (handleOutcome o ok s a).attempts = a.attempts := by
  cases o <;> simp [handleOutcome, markFetched]
  case success series => split_ifs <;> rfl

theorem handleOutcome_saves_append (o : FetchOutcome) (ok : Bool) (s : String) (a : Acc) :
    ∃ l2, (handleOutcome o ok s a).saves = a.saves ++ l2 := by
  cases o with
  | notFound => exact ⟨_, rfl⟩
  | permanentError => exact ⟨_, rfl⟩
  | transientError => exact ⟨[], (List.append_nil _).symm⟩
  | success series =>
      simp only [handleOutcome]
      split_ifs
      · exact ⟨_, rfl⟩
      · exact ⟨_, rfl⟩
      · exact ⟨_, rfl⟩
      · exact ⟨[], (List.append_nil _).symm⟩

theorem processLoop_saves_append (env : Env) (now0 : Int) :
    ∀ (l : List String) (a : Acc),
      ∃ l2, ((processLoop env now0 l a).1).saves = a.saves ++ l2 := by
  intro l
  induction l with
  | nil => intro a; exact ⟨[], by simp [processLoop]⟩
  | cons s rest ih =>
    intro a
    unfold processLoop stepEntity
    by_cases h1 : a.consecutive ≥ MAX_CONSECUTIVE_ERRORS
    · rw [if_pos h1]; exact ⟨_, rfl⟩
    · rw [if_neg h1]
      by_cases h2 : a.clock ≥ GH_ACTIONS_MAX_RUN_SECONDS
      · rw [if_pos h2]
        by_cases h3 : a.batch.isEmpty
        · rw [if_pos h3]; exact ⟨[], by simp⟩
        · rw [if_neg h3]; exact ⟨_, rfl⟩
      · rw [if_neg h2]
        obtain ⟨l2, hl2⟩ := ih (handleOutcome (env.fetch s) (env.sinkOk s) s
          {a with clock := a.clock + env.dur s, attempts := a.attempts ++ [s]})
        obtain ⟨l3, hl3⟩ := handleOutcome_saves_append (env.fetch s) (env.sinkOk s) s
          {a with clock := a.clock + env.dur s, attempts := a.attempts ++ [s]}
        refine ⟨l3 ++ l2, ?_⟩
        simp only [hl2, hl3]
        simp

theorem stepEntity_halt_attempts {env : Env} {now0 : Int} {s : String} {a a1 : Acc}
    {o : RunOutcome} (h : stepEntity env now0 s a = .halt a1 o) :
    a1.attempts = a.attempts := by
  unfold stepEntity at h
  split_ifs at h <;> cases h <;> rfl

theorem stepEntity_cont_attempts {env : Env} {now0 : Int} {s : String} {a a1 : Acc}
    (h : stepEntity env now0 s a = .cont a1) :
    a1.attempts = a.attempts ++ [s] := by
  unfold stepEntity at h
  split_ifs at h
  all_goals cases h
  rw [handleOutcome_attempts]

theorem processLoop_attempts_sub (env : Env) (now0 : Int) :
    ∀ (l : List String) (a : Acc) (s : String),
      s ∈ ((processLoop env now0 l a).1).attempts → s ∈ a.attempts ∨ s ∈ l := by
  intro l
  induction l with
  | nil => intro a s h; left; simpa [processLoop] using h
  | cons t rest ih =>
    intro a s h
    rw [processLoop] at h
    cases hs : stepEntity env now0 t a with
    | halt a1 o =>
        rw [hs] at h
        left
        rw [← stepEntity_halt_attempts hs]
        exact h
    | cont a1 =>
        rw [hs] at h
        rcases ih a1 s h with hl | hr
        · rw [stepEntity_cont_attempts hs] at hl
          rcases List.mem_append.mp hl with h4 | h4
          · exact Or.inl h4
          · right
            simp only [List.mem_singleton] at h4
            simp [h4]
        · right; exact List.mem_cons_of_mem _ hr

theorem Inv_insert_fetched {st : StateRecord} (h : st.Inv) {s : String}
    (h2 : s ∉ st.failed) (h3 : s ∉ st.blocked) :
    (StateRecord.mk (insert s st.fetched) st.failed st.blocked st.blocked_at).Inv := by
  obtain ⟨i1, i2, i3, i4⟩ := h
  refine ⟨?_, ?_, i3, i4⟩
  · rw [Finset.insert_inter_of_not_mem h2]; exact i1
  · rw [Finset.insert_inter_of_not_mem h3]; exact i2

theorem Inv_insert_failed {st : StateRecord} (h : st.Inv) {s : String}
    (h1 : s ∉ st.fetched) (h3 : s ∉ st.blocked) :
    (StateRecord.mk st.fetched (insert s st.failed) st.blocked st.blocked_at).Inv := by
  obtain ⟨i1, i2, i3, i4⟩ := h
  refine ⟨?_, i2, ?_, i4⟩
  · rw [Finset.inter_insert_of_not_mem h1]; exact i1
  · rw [Finset.insert_inter_of_not_mem h3]; exact i3

theorem inter_toFinset_empty {f : Finset String} {l : List String}
    (h : ∀ x ∈ l, x ∉ f) : f ∩ l.toFinset = ∅ := by
  rw [Finset.eq_empty_iff_forall_not_mem]
  intro x hx
  rw [Finset.mem_inter, List.mem_toFinset] at hx
  exact h x hx.2 hx.1

theorem blockSave_inv (a : Acc) (now1 : Int)
    (hInv : (stateOf a).Inv) (hB : BatchOK a) (hne : a.batch ≠ []) :
    (StateRecord.mk a.fetched a.failed (a.blocked ∪ a.batch.toFinset) (some now1)).Inv := by
  obtain ⟨i1, i2, i3, _⟩ := hInv
  simp only [stateOf] at i1 i2 i3
  refine ⟨i1, ?_, ?_, ?_⟩
  · show a.fetched ∩ (a.blocked ∪ a.batch.toFinset) = ∅
    rw [Finset.inter_union_distrib_left, i2,
      inter_toFinset_empty (fun x hx => (hB x hx).1), Finset.union_empty]
  · show a.failed ∩ (a.blocked ∪ a.batch.toFinset) = ∅
    rw [Finset.inter_union_distrib_left, i3,
      inter_toFinset_empty (fun x hx => (hB x hx).2.1), Finset.union_empty]
  · show (some now1).isSome = true ↔ a.blocked ∪ a.batch.toFinset ≠ ∅
    simp only [Option.isSome_some, true_iff]
    obtain ⟨x, hx⟩ := List.exists_mem_of_ne_nil a.batch hne
    exact Finset.ne_empty_of_mem (Finset.mem_union_right _ (List.mem_toFinset.mpr hx))

end RedditStats

namespace RedditStats

theorem handleOutcome_inv (o : FetchOutcome) (ok : Bool) (s : String) (a : Acc)
    (hInv : (stateOf a).Inv) (hSaves : ∀ st ∈ a.saves, st.Inv)
    (hc : a.consecutive = a.batch.length) (hB : BatchOK a)
    (hs1 : s ∉ a.fetched) (hs2 : s ∉ a.failed) (hs3 : s ∉ a.blocked) (hs4 : s ∉ a.batch) :
    (stateOf (handleOutcome o ok s a)).Inv ∧
    (∀ st ∈ (handleOutcome o ok s a).saves, st.Inv) ∧
    (handleOutcome o ok s a).consecutive = (handleOutcome o ok s a).batch.length ∧
    BatchOK (handleOutcome o ok s a) ∧
    (handleOutcome o ok s a).fetched ⊆ insert s a.fetched ∧
    (handleOutcome o ok s a).failed ⊆ insert s a.failed ∧
    (handleOutcome o ok s a).blocked = a.blocked ∧
    (∀ t ∈ (handleOutcome o ok s a).batch, t ∈ a.batch ∨ t = s) := by
  simp only [stateOf] at hInv
  have hfet : (StateRecord.mk (insert s a.fetched) a.failed a.blocked a.blocked_at).Inv :=
    Inv_insert_fetched hInv hs2 hs3
  have hfai : (StateRecord.mk a.fetched (insert s a.failed) a.blocked a.blocked_at).Inv :=
    Inv_insert_failed hInv hs1 hs3
  cases o with
  | transientError =>
      refine ⟨hInv, hSaves, ?_, ?_, Finset.subset_insert _ _, Finset.subset_insert _ _,
        rfl, ?_⟩
      · show a.consecutive + 1 = (a.batch ++ [s]).length
        simp [hc]
      · intro t ht
        show t ∉ a.fetched ∧ t ∉ a.failed ∧ t ∉ a.blocked
        rcases List.mem_append.mp ht with h | h
        · exact hB t h
        · simp only [List.mem_singleton] at h
          subst h; exact ⟨hs1, hs2, hs3⟩
      · intro t ht
        rcases List.mem_append.mp ht with h | h
        · exact Or.inl h
        · simp only [List.mem_singleton] at h; exact Or.inr h
  | permanentError =>
      refine ⟨hfai, ?_, rfl, ?_, Finset.subset_insert _ _, subset_refl _, rfl, ?_⟩
      · intro st hst
        rcases List.mem_append.mp hst with h | h
        · exact hSaves st h
        · simp only [List.mem_singleton] at h
          subst h; exact hfai
      · intro t ht; cases ht
      · intro t ht; cases ht
  | notFound =>
      refine ⟨hfet, ?_, rfl, ?_, subset_refl _, Finset.subset_insert _ _, rfl, ?_⟩
      · intro st hst
        rcases List.mem_append.mp hst with h | h
        · exact hSaves st h
        · simp only [List.mem_singleton] at h
          subst h; exact hfet
      · intro t ht; cases ht
      · intro t ht; cases ht
  | success series =>
      simp only [handleOutcome]
      split_ifs with h1 h2 h3
      all_goals first
      | (refine ⟨hfet, ?_, rfl, ?_, subset_refl _, Finset.subset_insert _ _, rfl, ?_⟩
         · intro st hst
           rcases List.mem_append.mp hst with h | h
           · exact hSaves st h
           · simp only [List.mem_singleton] at h
             subst h; exact hfet
         · intro t ht; cases ht
         · intro t ht; cases ht)
      | (refine ⟨hInv, hSaves, rfl, ?_, Finset.subset_insert _ _, Finset.subset_insert _ _,
           rfl, ?_⟩
         · intro t ht
           simp only [List.nil_append, List.mem_singleton] at ht
           subst ht
           exact ⟨hs1, hs2, hs3⟩
         · intro t ht
           simp only [List.nil_append, List.mem_singleton] at ht
           exact Or.inr ht)

theorem stepEntity_cont_loopinv {env : Env} {now0 : Int} {t : String} {a a1 : Acc}
    (rest : List String) (h : stepEntity env now0 t a = .cont a1)
    (hI : LoopInv a (t :: rest)) : LoopInv a1 rest := by
  obtain ⟨hInv, hSaves, hc, hB, hN, hP⟩ := hI
  obtain ⟨ht1, ht2, ht3, ht4⟩ := hP t (List.mem_cons_self t rest)
  have htr : t ∉ rest := (List.nodup_cons.mp hN).1
  have hNr : rest.Nodup := (List.nodup_cons.mp hN).2
  unfold stepEntity at h
  split_ifs at h <;> cases h
  set aup : Acc := {a with clock := a.clock + env.dur t, attempts := a.attempts ++ [t]}
    with haup
  have key := handleOutcome_inv (env.fetch t) (env.sinkOk t) t aup hInv hSaves hc hB
    ht1 ht2 ht3 ht4
  obtain ⟨k1, k2, k3, k4, k5, k6, k7, k8⟩ := key
  refine ⟨k1, k2, k3, k4, hNr, ?_⟩
  intro u hu
  obtain ⟨hu1, hu2, hu3, hu4⟩ := hP u (List.mem_cons_of_mem _ hu)
  have hut : u ≠ t := fun he => htr (he ▸ hu)
  refine ⟨?_, ?_, ?_, ?_⟩
  · intro hmem
    rcases Finset.mem_insert.mp (k5 hmem) with h | h
    · exact hut h
    · exact hu1 h
  · intro hmem
    rcases Finset.mem_insert.mp (k6 hmem) with h | h
    · exact hut h
    · exact hu2 h
  · intro hmem
    rw [k7] at hmem
    exact hu3 hmem
  · intro hmem
    rcases k8 u hmem with h | h
    · exact hu4 h
    · exact hut h

theorem stepEntity_halt_saves_inv {env : Env} {now0 : Int} {t : String} {a a1 : Acc}
    {o : RunOutcome} (rest : List String) (h : stepEntity env now0 t a = .halt a1 o)
    (hI : LoopInv a (t :: rest)) : ∀ st ∈ a1.saves, st.Inv := by
  obtain ⟨hInv, hSaves, hc, hB, _, _⟩ := hI
  unfold stepEntity at h
  split_ifs at h with h1 h2 h3 <;> cases h
  · intro st hst
    rcases List.mem_append.mp hst with hm | hm
    · exact hSaves st hm
    · simp only [List.mem_singleton] at hm
      subst hm
      refine blockSave_inv a _ hInv hB ?_
      intro hbe
      rw [hbe] at hc
      simp only [List.length_nil] at hc
      rw [hc] at h1
      exact absurd h1 (by norm_num [MAX_CONSECUTIVE_ERRORS])
  · exact hSaves
  · intro st hst
    rcases List.mem_append.mp hst with hm | hm
    · exact hSaves st hm
    · simp only [List.mem_singleton] at hm
      subst hm
      exact blockSave_inv a _ hInv hB (fun hbe => h3 (by simp [hbe]))

theorem processLoop_saves_inv (env : Env) (now0 : Int) :
    ∀ (l : List String) (a : Acc), LoopInv a l →
      ∀ st ∈ ((processLoop env now0 l a).1).saves, st.Inv := by
  intro l
  induction l with
  | nil => intro a hI; exact hI.2.1
  | cons t rest ih =>
      intro a hI
      rw [processLoop]
      cases hs : stepEntity env now0 t a with
      | halt a1 o => exact stepEntity_halt_saves_inv rest hs hI
      | cont a1 => exact ih a1 (stepEntity_cont_loopinv rest hs hI)

theorem reconcile_inv {now0 : Int} {st : StateRecord} (h : st.Inv) :
    ((reconcile now0 st).1).Inv ∧ ∀ r ∈ (reconcile now0 st).2, r.Inv := by
  unfold reconcile
  have hclear : (StateRecord.mk st.fetched st.failed ∅ none).Inv := by
    refine ⟨h.1, ?_, ?_, ?_⟩ <;> simp
  cases hb : st.blocked_at with
  | none => exact ⟨h, by simp⟩
  | some t =>
      dsimp only
      split_ifs with hc
      · refine ⟨hclear, ?_⟩
        intro r hr
        simp only [List.mem_singleton] at hr
        subst hr; exact hclear
      · exact ⟨h, by simp⟩

theorem mem_pendingOf {st : StateRecord} {subs : List String} {s : String} :
    s ∈ pendingOf st subs ↔
      s ∈ subs ∧ s ∉ st.fetched ∧ s ∉ st.failed ∧ s ∉ st.blocked := by
  simp [pendingOf, List.mem_filter]

theorem initAcc_loopinv {st : StateRecord} {saves0 : List StateRecord}
    {subs : List String} (h : st.Inv) (h2 : ∀ r ∈ saves0, r.Inv) (hN : subs.Nodup) :
    LoopInv (initAcc st saves0) (pendingOf st subs) := by
  refine ⟨h, h2, rfl, ?_, hN.filter _, ?_⟩
  · intro s hs; cases hs
  · intro s hs
    obtain ⟨_, hs1, hs2, hs3⟩ := mem_pendingOf.mp hs
    exact ⟨hs1, hs2, hs3, fun hc => by cases hc⟩

end RedditStats

namespace RedditStats

theorem reconcile_notBlocked {now0 : Int} {st : StateRecord} {x : String}
    (h : x ∉ st.blocked) :
    x ∉ (reconcile now0 st).1.blocked ∧ ∀ r ∈ (reconcile now0 st).2, x ∉ r.blocked := by
  unfold reconcile
  cases hb : st.blocked_at with
  | none => exact ⟨h, by simp⟩
  | some t =>
      dsimp only
      split_ifs
      · refine ⟨Finset.not_mem_empty x, ?_⟩
        intro r hr
        simp only [List.mem_singleton] at hr
        subst hr
        exact Finset.not_mem_empty x
      · exact ⟨h, by simp⟩

theorem handleOutcome_notBlocked {x : String} (o : FetchOutcome) (ok : Bool)
    (t : String) (a : Acc)
    (hx1 : x ∉ a.blocked) (hx2 : x ∉ a.batch)
    (hS : ∀ st ∈ a.saves, x ∉ st.blocked)
    (hxt : t = x → o = .permanentError) :
    x ∉ (handleOutcome o ok t a).blocked ∧ x ∉ (handleOutcome o ok t a).batch ∧
    ∀ st ∈ (handleOutcome o ok t a).saves, x ∉ st.blocked := by
  have hxtne : o ≠ .permanentError → x ≠ t := fun hne he => hne (hxt he.symm)
  have hmk : ∀ (b : Acc), b.blocked = a.blocked → b.batch = [] → b.saves = a.saves →
      x ∉ (markFetched t b).blocked ∧ x ∉ (markFetched t b).batch ∧
      ∀ st ∈ (markFetched t b).saves, x ∉ st.blocked := by
    intro b hb hbb hbs
    refine ⟨?_, ?_, ?_⟩
    · show x ∉ b.blocked
      rw [hb]; exact hx1
    · show x ∉ b.batch
      rw [hbb]; exact List.not_mem_nil x
    · show ∀ st ∈ b.saves ++ [stateOf {b with fetched := insert t b.fetched}], x ∉ st.blocked
      intro st hst
      rcases List.mem_append.mp hst with h | h
      · rw [hbs] at h; exact hS st h
      · simp only [List.mem_singleton] at h
        subst h
        show x ∉ b.blocked
        rw [hb]; exact hx1
  cases o with
  | transientError =>
      refine ⟨hx1, ?_, hS⟩
      intro hmem
      rcases List.mem_append.mp hmem with h | h
      · exact hx2 h
      · simp only [List.mem_singleton] at h
        exact hxtne (by simp) h
  | permanentError =>
      refine ⟨hx1, List.not_mem_nil x, ?_⟩
      intro st hst
      rcases List.mem_append.mp hst with h | h
      · exact hS st h
      · simp only [List.mem_singleton] at h
        subst h; exact hx1
  | notFound => exact hmk _ rfl rfl rfl
  | success series =>
      simp only [handleOutcome]
      split_ifs
      · exact hmk _ rfl rfl rfl
      · exact hmk _ rfl rfl rfl
      · exact hmk _ rfl rfl rfl
      · refine ⟨hx1, ?_, hS⟩
        intro hmem
        simp only [List.nil_append, List.mem_singleton] at hmem
        exact hxtne (by simp) hmem

theorem processLoop_notBlocked (env : Env) (now0 : Int) (x : String)
    (hp : env.fetch x = .permanentError) :
    ∀ (l : List String) (a : Acc),
      x ∉ a.blocked → x ∉ a.batch → (∀ st ∈ a.saves, x ∉ st.blocked) →
      x ∉ ((processLoop env now0 l a).1).blocked ∧
      ∀ st ∈ ((processLoop env now0 l a).1).saves, x ∉ st.blocked := by
  intro l
  induction l with
  | nil => intro a h1 h2 h3; exact ⟨h1, h3⟩
  | cons t rest ih =>
      intro a h1 h2 h3
      rw [processLoop]
      have hbu : x ∉ a.blocked ∪ a.batch.toFinset := by
        intro hm
        rcases Finset.mem_union.mp hm with h | h
        · exact h1 h
        · exact h2 (List.mem_toFinset.mp h)
      cases hs : stepEntity env now0 t a with
      | halt a1 o =>
          unfold stepEntity at hs
          split_ifs at hs <;> cases hs
          · refine ⟨hbu, ?_⟩
            intro st hst
            rcases List.mem_append.mp hst with h | h
            · exact h3 st h
            · simp only [List.mem_singleton] at h
              subst h; exact hbu
          · exact ⟨h1, h3⟩
          · refine ⟨hbu, ?_⟩
            intro st hst
            rcases List.mem_append.mp hst with h | h
            · exact h3 st h
            · simp only [List.mem_singleton] at h
              subst h; exact hbu
      | cont a1 =>
          unfold stepEntity at hs
          split_ifs at hs <;> cases hs
          have key := handleOutcome_notBlocked (env.fetch t) (env.sinkOk t) t
            {a with clock := a.clock + env.dur t, attempts := a.attempts ++ [t]}
            h1 h2 h3 (fun he => he ▸ hp)
          exact ih _ key.1 key.2.1 key.2.2

theorem toRow_eq_none {s : String} {p : RawPoint} (h : p.wf = false) :
    toRow s p = none := by
  unfold RawPoint.wf at h
  cases hu : p.utcDay <;> cases hc : p.count
  · simp [toRow, hu, hc]
  · simp [toRow, hu, hc]
  · simp [toRow, hu, hc]
  · exfalso
    rw [hu, hc] at h
    simp at h

theorem rowsOf_filter_wf (s : String) (series : List RawPoint) :
    rowsOf s series = rowsOf s (series.filter RawPoint.wf) := by
  induction series with
  | nil => rfl
  | cons p rest ih =>
      cases hw : p.wf with
      | true =>
          simp only [rowsOf, List.filter_cons, hw, if_pos, List.filterMap_cons]
          cases htr : toRow s p <;> simp [htr, rowsOf] at ih ⊢ <;> exact ih
      | false =>
          simp only [rowsOf, List.filter_cons, hw, List.filterMap_cons,
            toRow_eq_none hw]
          simpa [rowsOf] using ih

theorem rowsOf_eq_nil {s : String} {series : List RawPoint}
    (h : ∀ p ∈ series, p.wf = false) : rowsOf s series = [] := by
  rw [rowsOf, List.filterMap_eq_nil]
  intro p hp
  exact toRow_eq_none (h p hp)

theorem sink_fail_step (env : Env) (now0 : Int) (s : String) (a : Acc)
    (series : List RawPoint)
    (h1 : a.consecutive < MAX_CONSECUTIVE_ERRORS)
    (h2 : a.clock < GH_ACTIONS_MAX_RUN_SECONDS)
    (h3 : env.fetch s = .success series)
    (h4 : rowsOf s series ≠ [])
    (h5 : env.sinkOk s = false) :
    stepEntity env now0 s a = .cont {a with
      consecutive := 1,
      batch := [s],
      clock := a.clock + env.dur s,
      attempts := a.attempts ++ [s]} := by
  have hsn : series ≠ [] := by
    rintro rfl; exact h4 rfl
  unfold stepEntity
  rw [if_neg (Nat.not_le.mpr h1), if_neg (Nat.not_le.mpr h2), h3]
  simp [handleOutcome, markFetched, stateOf, hsn, h4, h5]

theorem sink_ok_step (env : Env) (now0 : Int) (s : String) (a : Acc)
    (series : List RawPoint)
    (h1 : a.consecutive < MAX_CONSECUTIVE_ERRORS)
    (h2 : a.clock < GH_ACTIONS_MAX_RUN_SECONDS)
    (h3 : env.fetch s = .success series)
    (h4 : rowsOf s series ≠ [])
    (h5 : env.sinkOk s = true) :
    stepEntity env now0 s a = .cont {a with
      fetched := insert s a.fetched,
      consecutive := 0,
      batch := [],
      clock := a.clock + env.dur s,
      attempts := a.attempts ++ [s],
      writes := a.writes ++ [(s, rowsOf s series)],
      saves := a.saves ++ [⟨insert s a.fetched, a.failed, a.blocked, a.blocked_at⟩]} := by
  have hsn : series ≠ [] := by
    rintro rfl; exact h4 rfl
  unfold stepEntity
  rw [if_neg (Nat.not_le.mpr h1), if_neg (Nat.not_le.mpr h2), h3]
  simp [handleOutcome, markFetched, stateOf, hsn, h4, h5]

end RedditStats

namespace RedditStats

/-- C1, counterexample to the claim as stated: with a backlog of exactly 50
distinct entities, every fetch failing transiently, the
consecutive-transient-error counter reaches the blocking threshold (on the
last entity), yet the run terminates `COMPLETED` with nothing moved into
the blocked set and nothing persisted, because the threshold is only
checked at the start of a loop iteration and no iteration remains. -/
theorem threshold_reached_at_last_entity_run_completes :
    (run envAllTransient 0 subs50 stEmpty).2 = RunOutcome.completed ∧
    (run envAllTransient 0 subs50 stEmpty).1.consecutive = MAX_CONSECUTIVE_ERRORS ∧
    (run envAllTransient 0 subs50 stEmpty).1.saves = [] ∧
    (run envAllTransient 0 subs50 stEmpty).1.blocked = ∅ ∧
    subs50.length = MAX_CONSECUTIVE_ERRORS ∧ subs50.Nodup := by decide

/-- C1, amended: whenever the counter has already reached the blocking
threshold at the start of a loop iteration (at least one backlog entity
remains unprocessed), the loop moves exactly the current failure batch into
the blocked set, persists that state with `blocked_at` set to the current
time, and terminates in `BLOCKED_COOLDOWN`.  The statement carries no
hypothesis on the clock, so this holds even when the time budget is also
exhausted: the threshold check takes precedence over the time-budget
check. -/
theorem threshold_abort_blocks_batch_before_time_check (env : Env) (now0 : Int)
    (s : String) (rest : List String) (a : Acc)
    (h : a.consecutive ≥ MAX_CONSECUTIVE_ERRORS) :
    processLoop env now0 (s :: rest) a =
      ({a with blocked := a.blocked ∪ a.batch.toFinset,
               saves := a.saves ++
                 [⟨a.fetched, a.failed, a.blocked ∪ a.batch.toFinset, some (now0 + a.clock)⟩]},
       RunOutcome.blockedCooldown) := by
  unfold processLoop stepEntity
  rw [if_pos h]

/-- C1, witness for the amended theorem at a concrete accumulator. -/
theorem threshold_abort_witness :
    accW.consecutive ≥ MAX_CONSECUTIVE_ERRORS ∧
    processLoop envAllTransient 0 ("x" :: []) accW =
      ({accW with
        blocked := accW.blocked ∪ accW.batch.toFinset,
        saves := accW.saves ++
          [⟨accW.fetched, accW.failed, accW.blocked ∪ accW.batch.toFinset,
            some ((0 : Int) + accW.clock)⟩]},
       RunOutcome.blockedCooldown) :=
  ⟨by decide, threshold_abort_blocks_batch_before_time_check envAllTransient 0 "x" [] accW
    (by decide)⟩

/-- C2: at the start of a loop iteration with the threshold not reached and
the time budget exhausted, the run terminates: in `TIME_EXHAUSTED` with the
accumulator (hence the state, the saves trace, everything) unchanged when
the failure batch is empty, and in `BLOCKED_COOLDOWN` with the batch folded
into the blocked set and persisted under a fresh `blocked_at` when the
batch is non-empty. -/
theorem time_budget_abort (env : Env) (now0 : Int) (s : String) (rest : List String)
    (a : Acc) (h1 : a.consecutive < MAX_CONSECUTIVE_ERRORS)
    (h2 : a.clock ≥ GH_ACTIONS_MAX_RUN_SECONDS) :
    (a.batch = [] → processLoop env now0 (s :: rest) a = (a, RunOutcome.timeExhausted)) ∧
    (a.batch ≠ [] → processLoop env now0 (s :: rest) a =
      ({a with blocked := a.blocked ∪ a.batch.toFinset,
               saves := a.saves ++
                 [⟨a.fetched, a.failed, a.blocked ∪ a.batch.toFinset, some (now0 + a.clock)⟩]},
       RunOutcome.blockedCooldown)) := by
  constructor
  · intro hb
    unfold processLoop stepEntity
    rw [if_neg (Nat.not_le.mpr h1), if_pos h2, if_pos (List.isEmpty_iff.mpr hb)]
  · intro hb
    unfold processLoop stepEntity
    rw [if_neg (Nat.not_le.mpr h1), if_pos h2, if_neg]
    simp [List.isEmpty_iff, hb]

/-- C2, witness at a concrete accumulator that exhausted the budget with an
empty batch. -/
theorem time_budget_abort_witness :
    accT.consecutive < MAX_CONSECUTIVE_ERRORS ∧
    accT.clock ≥ GH_ACTIONS_MAX_RUN_SECONDS ∧
    processLoop envAllTransient 0 ("x" :: []) accT = (accT, RunOutcome.timeExhausted) :=
  ⟨by decide, by decide,
    (time_budget_abort envAllTransient 0 "x" [] accT (by decide) (by decide)).1 rfl⟩

/-- C3: for a loaded state satisfying the data-model invariant whose
`blocked_at` is set and at least the 24h cooldown old, startup
reconciliation clears the blocked set and `blocked_at` and persists that
cleared state as the very first save (before any per-entity processing);
the backlog is then computed from the cleared state, so every previously
blocked entity that is on the master list and not otherwise dispositioned
is in the backlog again. -/
theorem cooldown_expiry_clears_blocked (env : Env) (now0 : Int) (subs : List String)
    (st0 : StateRecord) (t : Int) (hInv : st0.Inv) (hb : st0.blocked_at = some t)
    (ht : now0 - t ≥ COOLDOWN_SECONDS) :
    reconcile now0 st0 =
      (⟨st0.fetched, st0.failed, ∅, none⟩, [⟨st0.fetched, st0.failed, ∅, none⟩]) ∧
    run env now0 subs st0 =
      processLoop env now0 (pendingOf ⟨st0.fetched, st0.failed, ∅, none⟩ subs)
        (initAcc ⟨st0.fetched, st0.failed, ∅, none⟩ [⟨st0.fetched, st0.failed, ∅, none⟩]) ∧
    ((run env now0 subs st0).1).saves.head? = some ⟨st0.fetched, st0.failed, ∅, none⟩ ∧
    ∀ x ∈ st0.blocked, x ∈ subs → x ∉ st0.fetched → x ∉ st0.failed →
      x ∈ pendingOf ⟨st0.fetched, st0.failed, ∅, none⟩ subs := by
  have hne : st0.blocked ≠ ∅ := hInv.2.2.2.mp (by rw [hb]; rfl)
  have hr : reconcile now0 st0 =
      (⟨st0.fetched, st0.failed, ∅, none⟩, [⟨st0.fetched, st0.failed, ∅, none⟩]) := by
    unfold reconcile
    rw [hb]
    dsimp only
    rw [if_pos ⟨hne, ht⟩]
  have hrun : run env now0 subs st0 =
      processLoop env now0 (pendingOf ⟨st0.fetched, st0.failed, ∅, none⟩ subs)
        (initAcc ⟨st0.fetched, st0.failed, ∅, none⟩
          [⟨st0.fetched, st0.failed, ∅, none⟩]) := by
    unfold run
    rw [hr]
    dsimp only
    rw [if_neg]
    intro hcon
    exact hcon.2 rfl
  refine ⟨hr, hrun, ?_, ?_⟩
  · obtain ⟨l2, hl2⟩ := processLoop_saves_append env now0
      (pendingOf ⟨st0.fetched, st0.failed, ∅, none⟩ subs)
      (initAcc ⟨st0.fetched, st0.failed, ∅, none⟩ [⟨st0.fetched, st0.failed, ∅, none⟩])
    rw [hrun, hl2]
    rfl
  · intro x hx1 hx2 hx3 hx4
    exact mem_pendingOf.mpr ⟨hx2, hx3, hx4, Finset.not_mem_empty x⟩

/-- C3, witness at a concrete blocked state one full cooldown old. -/
theorem cooldown_expiry_witness :
    stBlockedNow.Inv ∧ stBlockedNow.blocked_at = some 0 ∧
    ((86400 : Int) - 0 ≥ COOLDOWN_SECONDS) ∧
    reconcile 86400 stBlockedNow = (⟨∅, ∅, ∅, none⟩, [⟨∅, ∅, ∅, none⟩]) :=
  ⟨by decide, rfl, by decide,
    (cooldown_expiry_clears_blocked envOkEmpty 86400 ["a"] stBlockedNow 0
      (by decide) rfl (by decide)).1⟩

end RedditStats

namespace RedditStats

/-- C4, counterexample to the claim as stated: a run that terminates
`COMPLETED` and a run that terminates `BLOCKED_COOLDOWN` return the same
value (`False`) to the caller, so the return value is not a tri-state
signal. -/
theorem completed_and_blocked_return_equal_values :
    (run envOkEmpty 0 ["a"] stEmpty).2 = RunOutcome.completed ∧
    (run envOkEmpty 0 ["a"] stBlockedNow).2 = RunOutcome.blockedCooldown ∧
    runBool envOkEmpty 0 ["a"] stEmpty = runBool envOkEmpty 0 ["a"] stBlockedNow := by
  decide

/-- C4, amended: the engine's return value is binary, not tri-state: it is
`True` exactly when the run terminates in `TIME_EXHAUSTED`, so the caller
can distinguish 're-invoke soon' from the other two terminal states but
cannot distinguish `COMPLETED` from `BLOCKED_COOLDOWN` by the return
value. -/
theorem return_value_true_iff_time_exhausted (env : Env) (now0 : Int)
    (subs : List String) (st0 : StateRecord) :
    runBool env now0 subs st0 = true ↔
      (run env now0 subs st0).2 = RunOutcome.timeExhausted := by
  unfold runBool
  cases h : (run env now0 subs st0).2 <;> simp [RunOutcome.toBool]

/-- C5: for a run started from a loaded state satisfying the documented
invariant (three pairwise-disjoint sets; `blocked_at` non-null iff
`blocked` non-empty), over a master list of unique entities (the spec's
entity-list contract), every state the engine persists — the startup
reconciliation save, every per-entity disposition save, and the saves at
the two abort sites — again satisfies the invariant. -/
theorem persisted_states_satisfy_invariant (env : Env) (now0 : Int)
    (subs : List String) (st0 : StateRecord) (h0 : st0.Inv) (hN : subs.Nodup) :
    ∀ st ∈ ((run env now0 subs st0).1).saves, st.Inv := by
  obtain ⟨hr1, hr2⟩ := @reconcile_inv now0 st0 h0
  unfold run
  split_ifs with hc
  · exact hr2
  · exact processLoop_saves_inv env now0 _ _ (initAcc_loopinv hr1 hr2 hN)

/-- C5, witness: a concrete run whose single persisted state satisfies the
invariant. -/
theorem persisted_states_invariant_witness :
    stEmpty.Inv ∧ List.Nodup ["a"] ∧
    stW ∈ ((run envW 0 ["a"] stEmpty).1).saves ∧ stW.Inv :=
  ⟨by decide, by decide, by decide,
    persisted_states_satisfy_invariant envW 0 ["a"] stEmpty (by decide) (by decide) stW
      (by decide)⟩

/-- C6: when an entity's fetch exhausts retries with a transient failure
(and neither abort condition held at the iteration start), the loop
continues with only the consecutive-error counter incremented, the entity
appended to the current failure batch, the clock advanced and the attempt
recorded: the `fetched`, `failed` and `blocked` sets, the `saves` trace and
the `writes` trace are those of the previous accumulator, unchanged — no
state is persisted and the entity keeps its pending disposition. -/
theorem transient_failure_updates_counter_only (env : Env) (now0 : Int)
    (s : String) (a : Acc)
    (h1 : a.consecutive < MAX_CONSECUTIVE_ERRORS)
    (h2 : a.clock < GH_ACTIONS_MAX_RUN_SECONDS)
    (h3 : env.fetch s = .transientError) :
    stepEntity env now0 s a = .cont {a with
      consecutive := a.consecutive + 1,
      batch := a.batch ++ [s],
      clock := a.clock + env.dur s,
      attempts := a.attempts ++ [s]} := by
  unfold stepEntity
  rw [if_neg (Nat.not_le.mpr h1), if_neg (Nat.not_le.mpr h2), h3]
  rfl

/-- C6, witness at a fresh accumulator. -/
theorem transient_failure_witness :
    (initAcc stEmpty []).consecutive < MAX_CONSECUTIVE_ERRORS ∧
    (initAcc stEmpty []).clock < GH_ACTIONS_MAX_RUN_SECONDS ∧
    envAllTransient.fetch "a" = FetchOutcome.transientError ∧
    stepEntity envAllTransient 0 "a" (initAcc stEmpty []) =
      StepRes.cont {initAcc stEmpty [] with
        consecutive := (initAcc stEmpty []).consecutive + 1,
        batch := (initAcc stEmpty []).batch ++ ["a"],
        clock := (initAcc stEmpty []).clock + envAllTransient.dur "a",
        attempts := (initAcc stEmpty []).attempts ++ ["a"]} :=
  ⟨by decide, by decide, rfl,
    transient_failure_updates_counter_only envAllTransient 0 "a" (initAcc stEmpty [])
      (by decide) (by decide) rfl⟩

/-- C7: for an entity whose fetch raises `PermanentError`, (1) the loop step
adds it to the permanently-failed set and persists exactly that state,
resets the transient counter to zero and clears the failure batch, leaving
`fetched` and `blocked` untouched; and (2) in any run from a state not
already blocking the entity, the entity never appears in the blocked set —
neither in the final in-memory state nor in any persisted state — so a
permanent failure is never treated as evidence of blocking. -/
theorem permanent_failure_marks_failed_never_blocked (env : Env) (s : String)
    (hp : env.fetch s = .permanentError) :
    (∀ (now0 : Int) (a : Acc), a.consecutive < MAX_CONSECUTIVE_ERRORS →
      a.clock < GH_ACTIONS_MAX_RUN_SECONDS →
      stepEntity env now0 s a = .cont {a with
        failed := insert s a.failed,
        consecutive := 0,
        batch := [],
        clock := a.clock + env.dur s,
        attempts := a.attempts ++ [s],
        saves := a.saves ++ [⟨a.fetched, insert s a.failed, a.blocked, a.blocked_at⟩]}) ∧
    (∀ (now0 : Int) (subs : List String) (st0 : StateRecord), s ∉ st0.blocked →
      s ∉ ((run env now0 subs st0).1).blocked ∧
      ∀ st ∈ ((run env now0 subs st0).1).saves, s ∉ st.blocked) := by
  constructor
  · intro now0 a h1 h2
    unfold stepEntity
    rw [if_neg (Nat.not_le.mpr h1), if_neg (Nat.not_le.mpr h2), hp]
    rfl
  · intro now0 subs st0 hb
    obtain ⟨hr1, hr2⟩ := @reconcile_notBlocked now0 st0 s hb
    unfold run
    split_ifs
    · exact ⟨hr1, hr2⟩
    · exact processLoop_notBlocked env now0 s hp _ _ hr1 (List.not_mem_nil s) hr2

/-- C7, witness at a concrete always-permanent-failure run. -/
theorem permanent_failure_witness :
    envPerm.fetch "a" = FetchOutcome.permanentError ∧
    "a" ∉ stEmpty.blocked ∧
    "a" ∉ ((run envPerm 0 ["a"] stEmpty).1).blocked :=
  ⟨rfl, by decide,
    ((permanent_failure_marks_failed_never_blocked envPerm "a" rfl).2 0 ["a"] stEmpty
      (by decide)).1⟩

end RedditStats

namespace RedditStats

/-- C8, counterexample to the claim as stated: from an empty state, a run
over master list `[a]` whose only fetch fails transiently terminates
`COMPLETED` and leaves the state unchanged; a second run started from that
final state attempts a fetch of `a` again, so a second run after a
completed run is not fetch-free in general. -/
theorem second_run_reattempts_transient_pending :
    (run envAllTransient 0 ["a"] stEmpty).2 = RunOutcome.completed ∧
    stateOf (run envAllTransient 0 ["a"] stEmpty).1 = stEmpty ∧
    ((run envAllTransient 0 ["a"]
        (stateOf (run envAllTransient 0 ["a"] stEmpty).1)).1).attempts = ["a"] := by
  decide

/-- C8, amended: (1) an entity is in the backlog iff it is on the master
list and in none of the three disposition sets; (2) the backlog is a
sublist of the master list, i.e. in original list order; (3) every entity a
run actually attempts is in the backlog computed from the reconciled
state — already-dispositioned entities are never re-attempted; (4) a second
run started from a state whose backlog against the master list is empty and
whose cooldown reconciliation is a no-op attempts no fetches, persists
nothing, writes nothing, and leaves the state unchanged.  (The original
claim quantified (4) over every completed run; the counterexample forces
the empty-backlog and unexpired-cooldown hypotheses.) -/
theorem backlog_filter_and_empty_backlog_noop :
    (∀ (st : StateRecord) (subs : List String) (s : String),
      s ∈ pendingOf st subs ↔
        s ∈ subs ∧ s ∉ st.fetched ∧ s ∉ st.failed ∧ s ∉ st.blocked) ∧
    (∀ (st : StateRecord) (subs : List String), List.Sublist (pendingOf st subs) subs) ∧
    (∀ (env : Env) (now0 : Int) (subs : List String) (st0 : StateRecord) (s : String),
      s ∈ ((run env now0 subs st0).1).attempts →
        s ∈ pendingOf (reconcile now0 st0).1 subs) ∧
    (∀ (env : Env) (now1 : Int) (subs : List String) (st1 : StateRecord),
      pendingOf st1 subs = [] → reconcile now1 st1 = (st1, []) →
        (run env now1 subs st1).1 = initAcc st1 []) := by
  refine ⟨fun st subs s => mem_pendingOf, ?_, ?_, ?_⟩
  · intro st subs
    exact List.filter_sublist subs
  · intro env now0 subs st0 s hmem
    unfold run at hmem
    split_ifs at hmem
    · cases hmem
    · rcases processLoop_attempts_sub env now0 _ _ s hmem with h | h
      · cases h
      · exact h
  · intro env now1 subs st1 hpend hrec
    unfold run
    rw [hrec]
    dsimp only
    rw [hpend]
    split_ifs <;> rfl

/-- C8, witness: a state whose only master-list entity is already fetched
yields an empty backlog, and the run from it is a no-op. -/
theorem backlog_noop_witness :
    pendingOf stW ["a"] = [] ∧ reconcile 0 stW = (stW, []) ∧
    (run envOkEmpty 0 ["a"] stW).1 = initAcc stW [] :=
  ⟨by decide, by decide,
    backlog_filter_and_empty_backlog_noop.2.2.2 envOkEmpty 0 ["a"] stW
      (by decide) (by decide)⟩

/-- C9, counterexample to the claim as stated: entity `a` fetches
successfully with one point but its sink write raises; the run does not
abort — it continues, fetches `b`, and terminates `COMPLETED`.  The raise
is swallowed by the broad `except Exception` handler and treated as a
transient failure: `a` stays out of `fetched` (and out of every persisted
state — the only save is the one for `b`) and no output is written. -/
theorem sink_failure_is_caught_not_abort :
    (run envSinkFail 0 ["a", "b"] stEmpty).2 = RunOutcome.completed ∧
    "a" ∉ (run envSinkFail 0 ["a", "b"] stEmpty).1.fetched ∧
    "b" ∈ (run envSinkFail 0 ["a", "b"] stEmpty).1.fetched ∧
    (run envSinkFail 0 ["a", "b"] stEmpty).1.saves = [⟨{"b"}, ∅, ∅, none⟩] ∧
    (run envSinkFail 0 ["a", "b"] stEmpty).1.writes = [] := by decide

/-- C9, amended: the sink write is attempted strictly before the entity is
marked fetched and before any persistence for it, and a failed write leaves
the disposition pending: when the write raises, the step continues with the
entity not added to `fetched`, nothing persisted and nothing written — the
already-reset counter becomes 1 and the batch becomes `[s]` (the raise is
handled by the transient-error handler, it does not abort the run); when
the write succeeds, the write, the `fetched` mark and the persistence all
happen in that step. -/
theorem sink_write_gates_fetched_mark (env : Env) (now0 : Int) (s : String)
    (a : Acc) (series : List RawPoint)
    (h1 : a.consecutive < MAX_CONSECUTIVE_ERRORS)
    (h2 : a.clock < GH_ACTIONS_MAX_RUN_SECONDS)
    (h3 : env.fetch s = .success series)
    (h4 : rowsOf s series ≠ []) :
    (env.sinkOk s = false →
      stepEntity env now0 s a = .cont {a with
        consecutive := 1,
        batch := [s],
        clock := a.clock + env.dur s,
        attempts := a.attempts ++ [s]}) ∧
    (env.sinkOk s = true →
      stepEntity env now0 s a = .cont {a with
        fetched := insert s a.fetched,
        consecutive := 0,
        batch := [],
        clock := a.clock + env.dur s,
        attempts := a.attempts ++ [s],
        writes := a.writes ++ [(s, rowsOf s series)],
        saves := a.saves ++ [⟨insert s a.fetched, a.failed, a.blocked, a.blocked_at⟩]}) :=
  ⟨fun h5 => sink_fail_step env now0 s a series h1 h2 h3 h4 h5,
   fun h5 => sink_ok_step env now0 s a series h1 h2 h3 h4 h5⟩

/-- C9, witness: the failing-sink arm at a concrete input. -/
theorem sink_write_witness :
    (initAcc stEmpty []).consecutive < MAX_CONSECUTIVE_ERRORS ∧
    (initAcc stEmpty []).clock < GH_ACTIONS_MAX_RUN_SECONDS ∧
    envSinkFail.fetch "a" = FetchOutcome.success [⟨some 0, some 1⟩] ∧
    rowsOf "a" [⟨some 0, some 1⟩] ≠ [] ∧
    envSinkFail.sinkOk "a" = false ∧
    stepEntity envSinkFail 0 "a" (initAcc stEmpty []) =
      StepRes.cont {initAcc stEmpty [] with
        consecutive := 1,
        batch := ["a"],
        clock := (initAcc stEmpty []).clock + envSinkFail.dur "a",
        attempts := (initAcc stEmpty []).attempts ++ ["a"]} :=
  ⟨by decide, by decide, by decide, by decide, by decide,
    (sink_write_gates_fetched_mark envSinkFail 0 "a" (initAcc stEmpty [])
      [⟨some 0, some 1⟩] (by decide) (by decide) (by decide) (by decide)).1 (by decide)⟩

/-- C10: (1) the output rows of a successful fetch are unchanged when the
malformed points (missing day or value) are removed first — malformed
points are silently dropped; (2) an entity whose series consists only of
malformed points is handled exactly like one with an empty series: the
dispatch results are equal, the entity is marked fetched and persisted, and
nothing is written to the sink. -/
theorem malformed_points_dropped :
    (∀ (s : String) (series : List RawPoint),
      rowsOf s series = rowsOf s (series.filter RawPoint.wf)) ∧
    (∀ (s : String) (series : List RawPoint) (ok : Bool) (a : Acc),
      (∀ p ∈ series, p.wf = false) →
        handleOutcome (.success series) ok s a = handleOutcome (.success []) ok s a ∧
        handleOutcome (.success series) ok s a =
          markFetched s {a with consecutive := 0, batch := []}) := by
  constructor
  · exact rowsOf_filter_wf
  · intro s series ok a hall
    have hrows : rowsOf s series = [] := rowsOf_eq_nil hall
    by_cases hse : series = []
    · subst hse; exact ⟨rfl, rfl⟩
    · have hne : series.isEmpty = false := by
        simpa [List.isEmpty_iff] using hse
      constructor
      · simp only [handleOutcome, hne, Bool.false_eq_true, if_false, hrows,
          List.isEmpty_nil, if_true]
      · simp only [handleOutcome, hne, Bool.false_eq_true, if_false, hrows,
          List.isEmpty_nil, if_true]

/-- C10, witness: a series with a single malformed point is handled like an
empty series. -/
theorem malformed_points_witness :
    RawPoint.wf ⟨none, some 3⟩ = false ∧
    handleOutcome (FetchOutcome.success [⟨none, some 3⟩]) true "a" (initAcc stEmpty []) =
      handleOutcome (FetchOutcome.success []) true "a" (initAcc stEmpty []) ∧
    handleOutcome (FetchOutcome.success [⟨none, some 3⟩]) true "a" (initAcc stEmpty []) =
      markFetched "a" {initAcc stEmpty [] with consecutive := 0, batch := []} :=
  ⟨by decide,
    (malformed_points_dropped.2 "a" [⟨none, some 3⟩] true (initAcc stEmpty [])
      (by decide)).1,
    (malformed_points_dropped.2 "a" [⟨none, some 3⟩] true (initAcc stEmpty [])
      (by decide)).2⟩

end RedditStats
